import Mathlib

/-!
Verification of the `code_puppy` filesystem inspection toolkit and the
model-picker pin-conflict handler.

The filesystem toolkit (`should_ignore_path`, `list_files`, `read_file`,
`grep` from `code_puppy.tools.file_operations`) ships only its test suite in
the sampled sources, so those operations are modelled from the specification
document; the surrounding world (directory trees, file contents, I/O
failures) is represented by explicit inductive data.  The pin-conflict
handler `_handle_pinned_model_change` is embedded directly from
`code_puppy/command_line/model_picker_completion.py`.
-/

namespace CodePuppy

/-! ## Definitions

String scanning is done over `String.data` (lists of characters) so that
every operation is a structural recursion the kernel can evaluate. -/

/-- Split a character list at every occurrence of the separator character,
returning the delimited segments (as strings).  An empty input yields one
empty segment, matching newline-delimited segment counting. -/
def splitOnCharAux (sep : Char) : List Char → List Char → List String
  | [], acc => [String.mk acc.reverse]
  | c :: cs, acc =>
    if c = sep then String.mk acc.reverse :: splitOnCharAux sep cs []
    else splitOnCharAux sep cs (c :: acc)

/-- The newline-delimited segments of a string. -/
def splitLines (s : String) : List String := splitOnCharAux '\n' s.data []

/-- The `/`-separated segments of a path string. -/
def splitSegs (s : String) : List String := splitOnCharAux '/' s.data []

/-- Decide whether the first list is a leading segment of the second. -/
def isPre : List Char → List Char → Bool
  | [], _ => true
  | _ :: _, [] => false
  | a :: p, b :: s => a = b && isPre p s

/-- Decide whether `q` occurs contiguously inside `s` (case-sensitive
literal containment, the semantics of Python's `in`). -/
def containsSub : List Char → List Char → Bool
  | s, q =>
    isPre q s ||
      match s with
      | [] => false
      | _ :: t => containsSub t q

/-- Contiguous-occurrence predicate: some left and right context
reassemble `s` around `q`. -/
def SubstrOf (q s : List Char) : Prop := ∃ l r, s = l ++ q ++ r

/-- Directory names whose path segments are always excluded from traversal
and search (VCS metadata, dependency installs, bytecode caches, virtual
environments). -/
def IGNORE_SEGMENTS : List String := [".git", "node_modules", "__pycache__", ".venv"]

/-- Decide whether `s` ends with `sfx`. -/
def endsWithStr (sfx s : String) : Bool := isPre sfx.data.reverse s.data.reverse

/-- Modelled from the spec: `should_ignore_path` of
`code_puppy.tools.file_operations` (production body not in the sampled
sources).  A path is ignored when some `/`-separated segment equals one of
the denylisted directory names, or when its final segment is a compiled
bytecode file (`*.pyc`) or OS metadata file (`.DS_Store`).  Matching is
anchored at path-segment boundaries. -/
def should_ignore_path (path : String) : Bool :=
  let segs := splitSegs path
  segs.any (fun s => IGNORE_SEGMENTS.contains s) ||
    match segs.getLast? with
    | some last => endsWithStr ".pyc" last || last == ".DS_Store"
    | none => false

mutual
/-- An in-memory directory tree entry; a file's content is `some text`
when the file can be opened and decoded as text, and `none` when opening
or decoding it fails (missing, permission denied, binary). -/
inductive FSEntry where
  | file (name : String) (content : Option String)
  | dir (name : String) (children : FSEntries)
deriving Repr

/-- A sequence of sibling entries, in filesystem-enumeration order. -/
inductive FSEntries where
  | nil
  | cons (head : FSEntry) (tail : FSEntries)
deriving Repr
end

/-- Build a sibling sequence from a list literal. -/
def FSEntries.ofList : List FSEntry → FSEntries
  | [] => .nil
  | e :: es => .cons e (FSEntries.ofList es)

/-- Join a directory path with a child name, as `os.path.join` does for
absolute POSIX paths. -/
def joinPath (dir name : String) : String := dir ++ "/" ++ name

/-- One grep result: the full (join-of-walked-directory-and-name) file
path, a 1-based line number, and the matching line's content. -/
structure MatchEntry where
  file_path : String
  line_number : Nat
  line_content : String
deriving Repr, DecidableEq

/-- The hard global cap on grep results. -/
def MAX_MATCHES : Nat := 200

/-- Whether a line contains the query as a case-sensitive literal
substring (Python's `query in line`). -/
def lineMatches (query line : String) : Bool := containsSub line.data query.data

/-- The non-excluded files directly inside a directory, in enumeration
order, as `(walked directory, file name, content)` triples. -/
def filesOf (dirPath : String) : FSEntries → List (String × String × Option String)
  | .nil => []
  | .cons (.file name c) rest =>
    if should_ignore_path (joinPath dirPath name) then filesOf dirPath rest
    else (dirPath, name, c) :: filesOf dirPath rest
  | .cons (.dir _ _) rest => filesOf dirPath rest

/-- Depth-first enumeration of the files under the non-excluded
subdirectories of a directory (the recursive part of `os.walk`):
excluded directories are pruned, not descended into. -/
def walkSubdirs (dirPath : String) : FSEntries → List (String × String × Option String)
  | .nil => []
  | .cons (.file _ _) rest => walkSubdirs dirPath rest
  | .cons (.dir name children) rest =>
    (if should_ignore_path (joinPath dirPath name) then []
     else
       filesOf (joinPath dirPath name) children ++
         walkSubdirs (joinPath dirPath name) children) ++
      walkSubdirs dirPath rest

/-- All non-excluded files under `root`, in `os.walk` top-down order:
the files of each visited directory first, then each subdirectory in
turn. -/
def walkFiles (root : String) (es : FSEntries) :
    List (String × String × Option String) :=
  filesOf root es ++ walkSubdirs root es

/-- Scan a file's lines in order with 1-based numbering `n`, emitting a
`MatchEntry` for each line containing the query, stopping the moment the
remaining global budget `b` runs out. -/
def grepLines (query filePath : String) :
    List String → Nat → Nat → List MatchEntry
  | [], _, _ => []
  | l :: ls, n, b =>
    if b = 0 then []
    else if lineMatches query l then
      ⟨filePath, n, l⟩ :: grepLines query filePath ls (n + 1) (b - 1)
    else grepLines query filePath ls (n + 1) b

/-- Scan the walked files in order, threading the remaining global match
budget; unreadable or undecodable files (`none` content) are silently
skipped. -/
def grepWalk (query : String) :
    List (String × String × Option String) → Nat → List MatchEntry
  | [], _ => []
  | (_, _, none) :: rest, b => grepWalk query rest b
  | (d, n, some text) :: rest, b =>
    let ms := grepLines query (joinPath d n) (splitLines text) 1 b
    ms ++ grepWalk query rest (b - ms.length)

/-- Modelled from the spec: `grep` of `code_puppy.tools.file_operations`
(production body not in the sampled sources).  Depth-first walk of the
tree rooted at `root`, skipping excluded paths, matching each line by
literal substring containment, capped globally at `MAX_MATCHES`. -/
def grep (query root : String) (es : FSEntries) : List MatchEntry :=
  grepWalk query (walkFiles root es) MAX_MATCHES

/-- The state of the world at the path handed to `read_file`: the path may
be missing, exist but not be a regular file, fail at open/read time with
some underlying reason (vanished, permission denied, encoding failure), or
be readable with some text content. -/
inductive FileState where
  | missing
  | notAFile
  | openFails (reason : String)
  | readable (text : String)

/-- The dictionary-shaped result of `read_file`: success populates
`content` and `total_lines`, failure populates `error`. -/
structure ReadResult where
  path : Option String
  content : Option String
  total_lines : Option Nat
  error : Option String
deriving Repr, DecidableEq

/-- Modelled from the spec: `read_file` of
`code_puppy.tools.file_operations` (production body not in the sampled
sources).  Validation order: existence, then regular-file check, then
open/read; success returns the complete text verbatim with the count of
newline-delimited segments, and every failure returns an error result
carrying the underlying reason — nothing is raised past this boundary. -/
def read_file (st : FileState) (path : String) : ReadResult :=
  match st with
  | .missing => ⟨some path, none, none, some ("File " ++ path ++ " does not exist")⟩
  | .notAFile => ⟨some path, none, none, some (path ++ " is not a file")⟩
  | .openFails reason =>
    ⟨some path, none, none, some ("Error reading " ++ path ++ ": " ++ reason)⟩
  | .readable text => ⟨some path, some text, some (splitLines text).length, none⟩

/-- The state of the world at the root handed to `list_files`: whether the
path exists, whether it is a directory, and the tree below it.  The two
validation flags are independent so that the order the checks are applied
in is observable. -/
structure RootFS where
  pathExists : Bool
  isDirectory : Bool
  children : FSEntries

/-- One `list_files` result element: a file or directory inventory entry,
or (alone in the result) an error record. -/
structure LFEntry where
  path : Option String
  type : Option String
  size : Option Nat
  error : Option String
deriving Repr, DecidableEq

/-- Forward-slash joining of root-relative paths; the root itself is the
empty relative path. -/
def relJoin (rel name : String) : String :=
  if rel = "" then name else rel ++ "/" ++ name

/-- Byte length on disk of a file's content. -/
def fileSize : Option String → Nat
  | some text => text.utf8ByteSize
  | none => 0

/-- The inventory entries for one directory level: one `directory` entry
per non-excluded subdirectory and one `file` entry (with its byte size)
per non-excluded file, paths relative to the walk root. -/
def lfLevel (rel : String) : FSEntries → List LFEntry
  | .nil => []
  | .cons (.file name c) rest =>
    if should_ignore_path (relJoin rel name) then lfLevel rel rest
    else ⟨some (relJoin rel name), some "file", some (fileSize c), none⟩ :: lfLevel rel rest
  | .cons (.dir name _) rest =>
    if should_ignore_path (relJoin rel name) then lfLevel rel rest
    else ⟨some (relJoin rel name), some "directory", none, none⟩ :: lfLevel rel rest

/-- The inventory entries contributed by the non-excluded subdirectories
of a level, depth-first; excluded subdirectories are pruned. -/
def lfSubdirs (rel : String) : FSEntries → List LFEntry
  | .nil => []
  | .cons (.file _ _) rest => lfSubdirs rel rest
  | .cons (.dir name children) rest =>
    (if should_ignore_path (relJoin rel name) then []
     else
       lfLevel (relJoin rel name) children ++
         lfSubdirs (relJoin rel name) children) ++
      lfSubdirs rel rest

/-- Full recursive inventory of a tree, parent level before children. -/
def lfWalk (rel : String) (es : FSEntries) : List LFEntry :=
  lfLevel rel es ++ lfSubdirs rel es

/-- The non-recursive inventory: only the non-excluded files of the root
level. -/
def lfFilesOnly (rel : String) : FSEntries → List LFEntry
  | .nil => []
  | .cons (.file name c) rest =>
    if should_ignore_path (relJoin rel name) then lfFilesOnly rel rest
    else ⟨some (relJoin rel name), some "file", some (fileSize c), none⟩ :: lfFilesOnly rel rest
  | .cons (.dir _ _) rest => lfFilesOnly rel rest

/-- Modelled from the spec: `list_files` of
`code_puppy.tools.file_operations` (production body not in the sampled
sources).  Preconditions are checked in order, short-circuiting:
existence first (error mentioning `does not exist`), then directory-ness
(error mentioning `is not a directory`); then the tree is walked
recursively, or restricted to the root level's files when
`recursive = false`. -/
def list_files (fs : RootFS) (directory : String) (recursive : Bool) : List LFEntry :=
  if fs.pathExists = false then
    [⟨none, none, none, some ("Directory " ++ directory ++ " does not exist")⟩]
  else if fs.isDirectory = false then
    [⟨none, none, none, some ("Path " ++ directory ++ " is not a directory")⟩]
  else if recursive then lfWalk "" fs.children
  else lfFilesOnly "" fs.children

/-- The outcome of a fallible external call: a value, or a raised
exception (of the class the handler's `except Exception` catches). -/
inductive Exc (α : Type) where
  | ok (a : α)
  | exn (msg : String)

/-- The external world the pin-conflict handler interacts with: the three
fallible interactions inside its `try` block — looking up the current
agent, reading that agent's pinned model, and prompting the user for a
choice — as oracle results that either return a value or raise. -/
structure PinEnv where
  currentAgentName : Exc String
  pinnedModel : String → Exc (Option String)
  promptChoice : Exc Nat

/-- The configuration side effect the pin-conflict handler performs. -/
inductive PinEffect where
  | noEffect
  | setPin (agent model : String)
  | clearPin (agent : String)
deriving Repr, DecidableEq

/-- Embedding of `_handle_pinned_model_change(requested_model)` from
`code_puppy/command_line/model_picker_completion.py`.  Returns the
boolean the function returns (`true` = proceed with the model change)
together with the pin side effect it performs.  Any exception from the
agent lookup, the pinned-model read, or the prompt is swallowed and the
change proceeds; a pinned model that is `None` or empty (falsy) or equal
to the requested model also proceeds without prompting; otherwise the
user's numbered choice decides, with choice 4 the only cancel path. -/
def handle_pinned_model_change (env : PinEnv) (requested_model : String) :
    Bool × PinEffect :=
  match env.currentAgentName with
  | .exn _ => (true, .noEffect)
  | .ok agentName =>
    match env.pinnedModel agentName with
    | .exn _ => (true, .noEffect)
    | .ok none => (true, .noEffect)
    | .ok (some pinned) =>
      if pinned = "" ∨ pinned = requested_model then (true, .noEffect)
      else
        match env.promptChoice with
        | .exn _ => (true, .noEffect)
        | .ok choice =>
          if choice = 1 then (true, .noEffect)
          else if choice = 2 then (true, .setPin agentName requested_model)
          else if choice = 3 then (true, .clearPin agentName)
          else if choice = 4 then (false, .noEffect)
          else (true, .noEffect)

/-- The specification-side description of a single file scan: the
1-based-numbered lines (starting at `n`) whose content contains the
query. -/
def matchingLinesFrom (query : String) : Nat → List String → List (Nat × String)
  | _, [] => []
  | n, l :: ls =>
    if lineMatches query l then (n, l) :: matchingLinesFrom query (n + 1) ls
    else matchingLinesFrom query (n + 1) ls

/-- Build a file's text from its lines, newline-separated (no trailing
newline). -/
def joinLines : List String → String
  | [] => ""
  | [l] => l
  | l :: ls => l ++ "\n" ++ joinLines ls

/-- The spec's ignore policy, stated declaratively: some path segment is
on the directory denylist, or the final segment ends in `.pyc` or equals
`.DS_Store`. -/
def IgnoredBySpec (path : String) : Prop :=
  (∃ s ∈ splitSegs path, s ∈ IGNORE_SEGMENTS) ∨
  (∃ last, (splitSegs path).getLast? = some last ∧
    ((∃ pre, last.data = pre ++ (".pyc" : String).data) ∨ last = ".DS_Store"))

/-- The test suite's three-file tree: `file1.txt` and `file2.py` at the
root and `file3.js` inside `subdir`. -/
def testTree (c1 c2 c3 : String) : FSEntries :=
  .ofList [.file "file1.txt" (some c1), .file "file2.py" (some c2),
    .dir "subdir" (.ofList [.file "file3.js" (some c3)])]

/-- A 250-line file content, every line containing the query `match`. -/
def content250 : String := joinLines (List.replicate 250 "match")

/-! ## Supporting lemmas -/

theorem isPre_iff (p s : List Char) : isPre p s = true ↔ ∃ r, s = p ++ r := by
  induction p generalizing s with
  | nil => simp [isPre]
  | cons a p ih =>
    cases s with
    | nil => simp [isPre]
    | cons b s =>
      simp only [isPre, Bool.and_eq_true, decide_eq_true_eq, ih]
      constructor
      · rintro ⟨rfl, r, rfl⟩; exact ⟨r, rfl⟩
      · rintro ⟨r, h⟩
        rw [List.cons_append] at h
        obtain ⟨rfl, rfl⟩ := List.cons.injEq .. ▸ h
        exact ⟨rfl, r, rfl⟩

theorem containsSub_iff (s q : List Char) :
    containsSub s q = true ↔ SubstrOf q s := by
  induction s with
  | nil =>
    simp only [containsSub, Bool.or_false, isPre_iff, SubstrOf]
    constructor
    · rintro ⟨r, h⟩
      exact ⟨[], r, by simpa using h⟩
    · rintro ⟨l, r, h⟩
      rw [List.nil_eq, List.append_assoc, List.append_eq_nil] at h
      exact ⟨r, by simp [h.1, h.2]⟩
  | cons c t ih =>
    simp only [containsSub, Bool.or_eq_true, isPre_iff, ih, SubstrOf]
    constructor
    · rintro (⟨r, h⟩ | ⟨l, r, h⟩)
      · exact ⟨[], r, by simpa using h⟩
      · exact ⟨c :: l, r, by simp [h]⟩
    · rintro ⟨l, r, h⟩
      cases l with
      | nil => exact Or.inl ⟨r, by simpa using h⟩
      | cons a l =>
        rw [List.cons_append, List.cons_append] at h
        obtain ⟨rfl, rfl⟩ := List.cons.injEq .. ▸ h
        exact Or.inr ⟨l, r, rfl⟩

/-- Containment extends along a left-appended context. -/
theorem SubstrOf.append_left {q s : List Char} (l : List Char)
    (h : SubstrOf q s) : SubstrOf q (l ++ s) := by
  obtain ⟨a, b, rfl⟩ := h
  exact ⟨l ++ a, b, by simp⟩

/-- A string contains every contiguous piece of its trailing part. -/
theorem substrOf_of_data_append (q a b : String)
    (h : SubstrOf q.data b.data) : SubstrOf q.data (a ++ b).data := by
  rw [String.data_append]
  exact h.append_left a.data

theorem grepLines_eq_take (query filePath : String) (ls : List String) :
    ∀ n b, grepLines query filePath ls n b =
      ((matchingLinesFrom query n ls).take b).map
        (fun x => ⟨filePath, x.1, x.2⟩) := by
  induction ls with
  | nil => intro n b; simp [grepLines, matchingLinesFrom]
  | cons l ls ih =>
    intro n b
    cases b with
    | zero => simp [grepLines]
    | succ b =>
      rw [grepLines, if_neg (Nat.succ_ne_zero b), matchingLinesFrom]
      by_cases hm : lineMatches query l = true
      · simp [hm, ih]
      · simp [hm, ih]

theorem grepLines_length_le (query filePath : String) (ls : List String)
    (n b : Nat) : (grepLines query filePath ls n b).length ≤ b := by
  rw [grepLines_eq_take, List.length_map]
  exact List.length_take_le b _

theorem grepWalk_length_le (query : String)
    (fs : List (String × String × Option String)) :
    ∀ b, (grepWalk query fs b).length ≤ b := by
  induction fs with
  | nil => intro b; simp [grepWalk]
  | cons f fs ih =>
    intro b
    obtain ⟨d, n, c⟩ := f
    cases c with
    | none => rw [grepWalk]; exact ih b
    | some text =>
      simp only [grepWalk, List.length_append]
      have h1 := grepLines_length_le query (joinPath d n) (splitLines text) 1 b
      have h2 := ih (b - (grepLines query (joinPath d n) (splitLines text) 1 b).length)
      omega

/-- Unreadable or undecodable files contribute nothing and the walk
continues unchanged around them. -/
theorem grepWalk_skip_unreadable (query : String)
    (fs1 fs2 : List (String × String × Option String)) (d n : String) :
    ∀ b, grepWalk query (fs1 ++ (d, n, none) :: fs2) b =
      grepWalk query (fs1 ++ fs2) b := by
  induction fs1 with
  | nil => intro b; simp [grepWalk]
  | cons f fs1 ih =>
    intro b
    obtain ⟨d', n', c'⟩ := f
    cases c' with
    | none => simpa [grepWalk] using ih b
    | some text => simp [grepWalk, ih]

theorem grepWalk_all_unreadable (query : String)
    (fs : List (String × String × Option String))
    (h : ∀ x ∈ fs, x.2.2 = none) : ∀ b, grepWalk query fs b = [] := by
  induction fs with
  | nil => intro b; simp [grepWalk]
  | cons f fs ih =>
    intro b
    obtain ⟨d, n, c⟩ := f
    have hc : c = none := h (d, n, c) (List.mem_cons_self ..)
    subst hc
    exact ih (fun x hx => h x (List.mem_cons_of_mem _ hx)) b

theorem mem_grepLines_file_path {m : MatchEntry} (query filePath : String)
    (ls : List String) (n b : Nat)
    (h : m ∈ grepLines query filePath ls n b) : m.file_path = filePath := by
  rw [grepLines_eq_take] at h
  obtain ⟨x, -, rfl⟩ := List.mem_map.mp h
  rfl

theorem mem_grepWalk_file_path {m : MatchEntry} (query : String)
    (fs : List (String × String × Option String)) :
    ∀ b, m ∈ grepWalk query fs b →
      ∃ x ∈ fs, m.file_path = joinPath x.1 x.2.1 := by
  induction fs with
  | nil => intro b h; simp [grepWalk] at h
  | cons f fs ih =>
    intro b h
    obtain ⟨d, n, c⟩ := f
    cases c with
    | none =>
      obtain ⟨x, hx, hm⟩ := ih b h
      exact ⟨x, List.mem_cons_of_mem _ hx, hm⟩
    | some text =>
      simp only [grepWalk, List.mem_append] at h
      rcases h with h | h
      · exact ⟨(d, n, some text), List.mem_cons_self ..,
          mem_grepLines_file_path _ _ _ _ _ h⟩
      · obtain ⟨x, hx, hm⟩ := ih _ h
        exact ⟨x, List.mem_cons_of_mem _ hx, hm⟩

/-- Every file enumerated at a directory level carries that directory as
its walked-directory component. -/
theorem mem_filesOf_dirPath (dirPath : String) (es : FSEntries) :
    ∀ x ∈ filesOf dirPath es, x.1 = dirPath := by
  induction es using filesOf.induct dirPath with
  | case1 => simp [filesOf]
  | case2 name c rest hig ih =>
    intro x hx
    rw [filesOf, if_pos hig] at hx
    exact ih x hx
  | case3 name c rest hig ih =>
    intro x hx
    rw [filesOf, if_neg hig] at hx
    rcases List.mem_cons.mp hx with rfl | hx
    · rfl
    · exact ih x hx
  | case4 name children rest ih =>
    intro x hx
    rw [filesOf] at hx
    exact ih x hx

/-- Every directory visited below the root by the walk extends the root
path. -/
theorem walkSubdirs_dir_extends :
    ∀ (dirPath : String) (es : FSEntries),
      ∀ x ∈ walkSubdirs dirPath es, ∃ ext, x.1 = dirPath ++ ext := by
  intro dirPath es
  induction dirPath, es using walkSubdirs.induct with
  | case1 => simp [walkSubdirs]
  | case2 dirPath name c rest ih =>
    intro x hx
    rw [walkSubdirs] at hx
    exact ih x hx
  | case3 dirPath name children rest ih1 ih2 =>
    intro x hx
    rw [walkSubdirs] at hx
    rcases List.mem_append.mp hx with hx | hx
    · split at hx
      · simp at hx
      · rcases List.mem_append.mp hx with hx | hx
        · refine ⟨"/" ++ name, ?_⟩
          rw [mem_filesOf_dirPath _ _ x hx, joinPath]
          rw [String.append_assoc]
        · obtain ⟨ext, hext⟩ := ih1 x hx
          refine ⟨"/" ++ name ++ ext, ?_⟩
          rw [hext, joinPath]
          simp [String.append_assoc]
    · exact ih2 x hx

/-- Every file produced by the walk lies at or below the root. -/
theorem mem_walkFiles_extends (root : String) (es : FSEntries) :
    ∀ x ∈ walkFiles root es, ∃ ext, x.1 = root ++ ext := by
  intro x hx
  rcases List.mem_append.mp hx with hx | hx
  · exact ⟨"", by rw [mem_filesOf_dirPath _ _ x hx, String.append_empty]⟩
  · exact walkSubdirs_dir_extends root es x hx

theorem splitOnCharAux_no_sep (sep : Char) :
    ∀ (l : List Char), sep ∉ l →
      ∀ cs acc, splitOnCharAux sep (l ++ cs) acc =
        splitOnCharAux sep cs (l.reverse ++ acc) := by
  intro l
  induction l with
  | nil => intro _ cs acc; simp
  | cons c l ih =>
    intro h cs acc
    have hc : ¬c = sep := fun hcs => h (List.mem_cons.mpr (Or.inl hcs.symm))
    rw [List.cons_append, splitOnCharAux, if_neg hc,
      ih (fun hm => h (List.mem_cons_of_mem _ hm)) cs (c :: acc)]
    simp [List.append_assoc]

theorem splitLines_single (x : String) (hx : '\n' ∉ x.data) :
    splitLines x = [x] := by
  unfold splitLines
  have h := splitOnCharAux_no_sep '\n' x.data hx [] []
  rw [List.append_nil] at h
  rw [h, splitOnCharAux]
  simp

theorem splitLines_joinLines :
    ∀ (L : List String), L ≠ [] → (∀ x ∈ L, '\n' ∉ x.data) →
      splitLines (joinLines L) = L := by
  intro L
  induction L with
  | nil => intro h; exact absurd rfl h
  | cons x L ih =>
    intro _ hmem
    cases L with
    | nil =>
      rw [show joinLines [x] = x from rfl]
      exact splitLines_single x (hmem x (List.mem_cons_self ..))
    | cons y L =>
      rw [show joinLines (x :: y :: L) = (x ++ "\n") ++ joinLines (y :: L) from rfl]
      unfold splitLines
      rw [String.data_append, String.data_append,
        show ("\n" : String).data = ['\n'] from rfl, List.append_assoc,
        List.singleton_append,
        splitOnCharAux_no_sep '\n' x.data (hmem x (List.mem_cons_self ..)),
        splitOnCharAux, if_pos rfl]
      rw [List.append_nil, List.reverse_reverse]
      exact congrArg (x :: ·)
        (ih (List.cons_ne_nil y L) fun z hz => hmem z (List.mem_cons_of_mem _ hz))

theorem matchingLinesFrom_replicate_length (query l : String)
    (h : lineMatches query l = true) :
    ∀ n k, (matchingLinesFrom query n (List.replicate k l)).length = k := by
  intro n k
  induction k generalizing n with
  | zero => simp [matchingLinesFrom]
  | succ k ih =>
    rw [List.replicate_succ, matchingLinesFrom, if_pos h]
    simp [ih]

theorem endsWithStr_iff (sfx s : String) :
    endsWithStr sfx s = true ↔ ∃ pre, s.data = pre ++ sfx.data := by
  unfold endsWithStr
  rw [isPre_iff]
  constructor
  · rintro ⟨r, hr⟩
    refine ⟨r.reverse, ?_⟩
    have h := congrArg List.reverse hr
    simpa using h
  · rintro ⟨pre, hp⟩
    exact ⟨pre.reverse, by simp [hp]⟩

theorem handle_pin_false_iff (ca : Exc String)
    (pm : String → Exc (Option String)) (pc : Exc Nat) (req : String) :
    (handle_pinned_model_change ⟨ca, pm, pc⟩ req).1 = false ↔
      (∃ agent pinned, ca = .ok agent ∧ pm agent = .ok (some pinned) ∧
        pinned ≠ "" ∧ pinned ≠ req ∧ pc = .ok 4) := by
  cases ca with
  | exn m => simp [handle_pinned_model_change]
  | ok agentName =>
    cases hpm : pm agentName with
    | exn m =>
      simp only [handle_pinned_model_change, hpm, Bool.true_eq_false, false_iff]
      rintro ⟨agent, pinned, ha, hp, -, -, -⟩
      obtain rfl := Exc.ok.inj ha
      rw [hpm] at hp
      exact Exc.noConfusion hp
    | ok pinnedOpt =>
      cases pinnedOpt with
      | none =>
        simp only [handle_pinned_model_change, hpm, Bool.true_eq_false, false_iff]
        rintro ⟨agent, pinned, ha, hp, -, -, -⟩
        obtain rfl := Exc.ok.inj ha
        rw [hpm] at hp
        exact Option.noConfusion (Exc.ok.inj hp)
      | some p =>
        simp only [handle_pinned_model_change, hpm]
        by_cases hp : p = "" ∨ p = req
        · rw [if_pos hp]
          simp only [Bool.true_eq_false, false_iff]
          rintro ⟨agent, pinned, ha, hpin, hne, hnr, -⟩
          obtain rfl := Exc.ok.inj ha
          rw [hpm] at hpin
          obtain rfl := Option.some.inj (Exc.ok.inj hpin)
          rcases hp with hp | hp
          · exact hne hp
          · exact hnr hp
        · rw [if_neg hp]
          cases pc with
          | exn m =>
            simp only [Bool.true_eq_false, false_iff]
            rintro ⟨agent, pinned, -, -, -, -, hc⟩
            exact Exc.noConfusion hc
          | ok choice =>
            push_neg at hp
            constructor
            · intro hfalse
              replace hfalse : (if choice = 1 then (true, PinEffect.noEffect)
                  else if choice = 2 then (true, PinEffect.setPin agentName req)
                  else if choice = 3 then (true, PinEffect.clearPin agentName)
                  else if choice = 4 then (false, PinEffect.noEffect)
                  else (true, PinEffect.noEffect)).1 = false := hfalse
              by_cases h4 : choice = 4
              · exact ⟨agentName, p, rfl, hpm, hp.1, hp.2, by rw [h4]⟩
              · exfalso
                by_cases h1 : choice = 1
                · rw [if_pos h1] at hfalse
                  exact Bool.noConfusion hfalse
                · rw [if_neg h1] at hfalse
                  by_cases h2 : choice = 2
                  · rw [if_pos h2] at hfalse
                    exact Bool.noConfusion hfalse
                  · rw [if_neg h2] at hfalse
                    by_cases h3 : choice = 3
                    · rw [if_pos h3] at hfalse
                      exact Bool.noConfusion hfalse
                    · rw [if_neg h3, if_neg h4] at hfalse
                      exact Bool.noConfusion hfalse
            · rintro ⟨agent, pinned, ha, hpin, -, -, hc⟩
              obtain rfl := Exc.ok.inj hc
              rfl

/-! ## Claim theorems -/

/-- Claim C2: `should_ignore_path` returns true exactly for paths with a
full path-segment equal to `.git`, `node_modules`, `__pycache__`, or
`.venv`, or whose final segment ends in `.pyc` or equals `.DS_Store`;
matching is anchored at segment boundaries, so `mygit.txt` is not
ignored, and the test suite's positive and negative examples behave as
asserted. -/
theorem should_ignore_path_spec_C2 :
    (∀ path, should_ignore_path path = true ↔ IgnoredBySpec path) ∧
    should_ignore_path "mygit.txt" = false ∧
    should_ignore_path "path/node_modules/file.js" = true ∧
    should_ignore_path "path/.git/config" = true ∧
    should_ignore_path "path/__pycache__/module.pyc" = true ∧
    should_ignore_path "path/.DS_Store" = true ∧
    should_ignore_path "path/.venv/bin/python" = true ∧
    should_ignore_path "path/module.pyc" = true ∧
    should_ignore_path "main.py" = false ∧
    should_ignore_path "src/app.js" = false ∧
    should_ignore_path "README.md" = false ∧
    should_ignore_path "data/config.yaml" = false := by
  refine ⟨?_, by decide, by decide, by decide, by decide, by decide, by decide,
    by decide, by decide, by decide, by decide, by decide⟩
  intro path
  unfold should_ignore_path IgnoredBySpec
  rw [Bool.or_eq_true, List.any_eq_true]
  apply or_congr
  · constructor
    · rintro ⟨s, hs, hc⟩
      exact ⟨s, hs, by simpa using hc⟩
    · rintro ⟨s, hs, hc⟩
      exact ⟨s, hs, by simpa using hc⟩
  · cases hcase : (splitSegs path).getLast? with
    | none => simp
    | some last =>
      simp only [Bool.or_eq_true, beq_iff_eq, endsWithStr_iff]
      constructor
      · rintro (h | h)
        · exact ⟨last, rfl, Or.inl h⟩
        · exact ⟨last, rfl, Or.inr h⟩
      · rintro ⟨l2, hl2, h⟩
        obtain rfl : last = l2 := Option.some.inj hl2
        exact h

/-- Witness for C2: the universally quantified characterization applied
at the segment-anchoring example `mygit.txt`. -/
theorem should_ignore_path_spec_C2_witness :
    ¬IgnoredBySpec "mygit.txt" := by
  intro h
  have hc := (should_ignore_path_spec_C2.1 "mygit.txt").mpr h
  rw [should_ignore_path_spec_C2.2.1] at hc
  exact Bool.false_ne_true hc

/-- Claim C3: on a readable file, `read_file` returns the complete text
verbatim together with the count of newline-delimited segments, and no
error; on the two-line test content the count is 2. -/
theorem read_file_success_C3 :
    (∀ path text, read_file (.readable text) path =
      ⟨some path, some text, some (splitLines text).length, none⟩) ∧
    read_file (.readable "Hello, world!\nThis is a test file.") "test.txt" =
      ⟨some "test.txt", some "Hello, world!\nThis is a test file.", some 2, none⟩ := by
  exact ⟨fun path text => rfl, by decide⟩

/-- Witness for C3: the success clause applied at a concrete readable
file. -/
theorem read_file_success_C3_witness :
    read_file (.readable "hi") "f.txt" =
      ⟨some "f.txt", some "hi", some (splitLines "hi").length, none⟩ :=
  read_file_success_C3.1 "f.txt" "hi"

/-- Claim C4: `read_file` always returns a result value whose success
fields and error field are mutually exclusive, and any open/read failure
produces an error message containing the underlying reason. -/
theorem read_file_total_exclusive_C4 :
    (∀ st path, ((read_file st path).error = none ∧
        ((read_file st path).content).isSome ∧
        ((read_file st path).total_lines).isSome) ∨
      (((read_file st path).error).isSome ∧
        (read_file st path).content = none ∧
        (read_file st path).total_lines = none)) ∧
    (∀ path reason, ∃ msg,
      read_file (.openFails reason) path = ⟨some path, none, none, some msg⟩ ∧
      SubstrOf reason.data msg.data) := by
  constructor
  · intro st path
    cases st with
    | missing => exact Or.inr ⟨rfl, rfl, rfl⟩
    | notAFile => exact Or.inr ⟨rfl, rfl, rfl⟩
    | openFails reason => exact Or.inr ⟨rfl, rfl, rfl⟩
    | readable text => exact Or.inl ⟨rfl, rfl, rfl⟩
  · intro path reason
    refine ⟨"Error reading " ++ path ++ ": " ++ reason, rfl, ?_⟩
    rw [String.data_append]
    exact ⟨("Error reading " ++ path ++ ": ").data, [], by simp⟩

/-- Witness for C4: the exclusivity and the reason-carrying error at the
permission-denied instance from the test suite. -/
theorem read_file_total_exclusive_C4_witness :
    ∃ msg, read_file (.openFails "Permission denied") "protected.txt" =
      ⟨some "protected.txt", none, none, some msg⟩ ∧
      SubstrOf ("Permission denied" : String).data msg.data :=
  read_file_total_exclusive_C4.2 "protected.txt" "Permission denied"

/-- Claim C6: `list_files` validates its root in order, short-circuiting:
a missing root yields exactly one error element mentioning `does not
exist` whatever the directory flag says (so existence is checked first),
and an existing non-directory root yields exactly one error element
mentioning `is not a directory`; no exception escapes — a result list is
always returned. -/
theorem list_files_validation_C6 :
    ∀ (directory : String) (recursive isDir : Bool) (children : FSEntries),
      (∃ msg, list_files ⟨false, isDir, children⟩ directory recursive =
          [⟨none, none, none, some msg⟩] ∧
        SubstrOf ("does not exist" : String).data msg.data) ∧
      (∃ msg, list_files ⟨true, false, children⟩ directory recursive =
          [⟨none, none, none, some msg⟩] ∧
        SubstrOf ("is not a directory" : String).data msg.data) := by
  intro directory recursive isDir children
  constructor
  · refine ⟨"Directory " ++ directory ++ " does not exist", rfl, ?_⟩
    exact substrOf_of_data_append _ _ _ ((containsSub_iff _ _).mp (by decide))
  · refine ⟨"Path " ++ directory ++ " is not a directory", rfl, ?_⟩
    exact substrOf_of_data_append _ _ _ ((containsSub_iff _ _).mp (by decide))

/-- Witness for C6: both validation clauses at the concrete test paths. -/
theorem list_files_validation_C6_witness :
    (∃ msg, list_files ⟨false, false, .nil⟩ "/nonexistent" true =
        [⟨none, none, none, some msg⟩] ∧
      SubstrOf ("does not exist" : String).data msg.data) ∧
    (∃ msg, list_files ⟨true, false, .nil⟩ "/file.txt" true =
        [⟨none, none, none, some msg⟩] ∧
      SubstrOf ("is not a directory" : String).data msg.data) :=
  ⟨(list_files_validation_C6 "/nonexistent" true false .nil).1,
    (list_files_validation_C6 "/file.txt" true false .nil).2⟩

/-- Claim C7: on the three-file tree, a recursive listing carries the
root-relative forward-slash path `subdir/file3.js` and a directory entry
`subdir`, while a non-recursive listing returns exactly the two
root-level file entries. -/
theorem list_files_recursive_C7 :
    ∀ c1 c2 c3 : String,
      (∃ e ∈ list_files ⟨true, true, testTree c1 c2 c3⟩ "/test" true,
        e.path = some "subdir/file3.js" ∧ e.type = some "file") ∧
      (∃ e ∈ list_files ⟨true, true, testTree c1 c2 c3⟩ "/test" true,
        e.path = some "subdir" ∧ e.type = some "directory") ∧
      list_files ⟨true, true, testTree c1 c2 c3⟩ "/test" false =
        [⟨some "file1.txt", some "file", some (fileSize (some c1)), none⟩,
         ⟨some "file2.py", some "file", some (fileSize (some c2)), none⟩] := by
  intro c1 c2 c3
  have hrec : list_files ⟨true, true, testTree c1 c2 c3⟩ "/test" true =
      [⟨some "file1.txt", some "file", some (fileSize (some c1)), none⟩,
       ⟨some "file2.py", some "file", some (fileSize (some c2)), none⟩,
       ⟨some "subdir", some "directory", none, none⟩,
       ⟨some "subdir/file3.js", some "file", some (fileSize (some c3)), none⟩] := rfl
  refine ⟨?_, ?_, rfl⟩
  · exact ⟨⟨some "subdir/file3.js", some "file", some (fileSize (some c3)), none⟩,
      by rw [hrec]; simp, rfl, rfl⟩
  · exact ⟨⟨some "subdir", some "directory", none, none⟩,
      by rw [hrec]; simp, rfl, rfl⟩

/-- Witness for C7: the recursive/non-recursive contrast at concrete
one-character file contents. -/
theorem list_files_recursive_C7_witness :
    (∃ e ∈ list_files ⟨true, true, testTree "a" "b" "c"⟩ "/test" true,
      e.path = some "subdir/file3.js" ∧ e.type = some "file") ∧
    (∃ e ∈ list_files ⟨true, true, testTree "a" "b" "c"⟩ "/test" true,
      e.path = some "subdir" ∧ e.type = some "directory") ∧
    list_files ⟨true, true, testTree "a" "b" "c"⟩ "/test" false =
      [⟨some "file1.txt", some "file", some (fileSize (some "a")), none⟩,
       ⟨some "file2.py", some "file", some (fileSize (some "b")), none⟩] :=
  list_files_recursive_C7 "a" "b" "c"

/-- Claim C1: grep returns at most 200 entries over any tree and any
query, and a single file whose 250 lines all contain the query yields
exactly 200 entries, not 250. -/
theorem grep_cap_C1 :
    (∀ query root es, (grep query root es).length ≤ 200) ∧
    MAX_MATCHES = 200 ∧
    (grep "match" "/test"
      (.ofList [.file "test.txt" (some content250)])).length = 200 := by
  refine ⟨?_, rfl, ?_⟩
  · intro query root es
    exact grepWalk_length_le query (walkFiles root es) MAX_MATCHES
  · have hsplit : splitLines content250 = List.replicate 250 "match" := by
      refine splitLines_joinLines _ ?_ ?_
      · intro h
        have hl := congrArg List.length h
        rw [List.length_replicate, List.length_nil] at hl
        omega
      · intro x hx
        rw [List.eq_of_mem_replicate hx]
        decide
    have h1 : grep "match" "/test" (.ofList [.file "test.txt" (some content250)]) =
        grepLines "match" (joinPath "/test" "test.txt")
          (splitLines content250) 1 MAX_MATCHES := by
      rw [grep]
      rw [show walkFiles "/test" (FSEntries.ofList [.file "test.txt" (some content250)]) =
        [("/test", "test.txt", some content250)] from rfl]
      simp only [grepWalk, List.append_nil]
    rw [h1, grepLines_eq_take, List.length_map, List.length_take, hsplit,
      matchingLinesFrom_replicate_length "match" "match" (by decide)]
    decide

/-- Witness for C1: the cap bound applied at a concrete query and tree. -/
theorem grep_cap_C1_witness :
    (grep "match" "/x" (.ofList [.file "t.txt" (some "match")])).length ≤ 200 :=
  grep_cap_C1.1 "match" "/x" (.ofList [.file "t.txt" (some "match")])

/-- Claim C5: files that cannot be opened or decoded contribute no entry
at all: deleting an unreadable file from the walk leaves grep's output
unchanged, a tree with only unreadable files yields the empty result,
and readable files around an unreadable one are still searched. -/
theorem grep_skips_unreadable_C5 :
    (∀ query root es, (∀ x ∈ walkFiles root es, x.2.2 = none) →
      grep query root es = []) ∧
    (∀ query fs1 fs2 d n b,
      grepWalk query (fs1 ++ (d, n, none) :: fs2) b =
        grepWalk query (fs1 ++ fs2) b) ∧
    grep "match" "/test" (.ofList [.file "test.txt" none]) = [] ∧
    grep "match" "/test" (.ofList [.file "binary.bin" none]) = [] ∧
    grep "match" "/test"
      (.ofList [.file "bad.bin" none, .file "good.txt" (some "a match")]) =
      [⟨"/test/good.txt", 1, "a match"⟩] := by
  refine ⟨?_, ?_, by decide, by decide, by decide⟩
  · intro query root es h
    exact grepWalk_all_unreadable query _ h MAX_MATCHES
  · intro query fs1 fs2 d n b
    exact grepWalk_skip_unreadable query fs1 fs2 d n b

/-- Witness for C5: the all-unreadable clause applied to a concrete
single-file tree, its hypothesis discharged by evaluation. -/
theorem grep_skips_unreadable_C5_witness :
    grep "x" "/r" (.ofList [.file "u.bin" none]) = [] :=
  grep_skips_unreadable_C5.1 "x" "/r" _ (by decide)

/-- Claim C8: a line matches exactly when the query occurs in it as a
case-sensitive literal substring; scanning is in order with 1-based line
numbers, so the three-line test file yields exactly the single entry at
line 3, a no-match file contributes nothing, and matching is
case-sensitive. -/
theorem grep_substring_matching_C8 :
    (∀ query line, lineMatches query line = true ↔
      SubstrOf query.data line.data) ∧
    (∀ query filePath ls n b, grepLines query filePath ls n b =
      ((matchingLinesFrom query n ls).take b).map
        (fun x => ⟨filePath, x.1, x.2⟩)) ∧
    grep "match" "/test"
      (.ofList [.file "test.txt"
        (some "This is a test file\nwith multiple lines\nand a match here")]) =
      [⟨"/test/test.txt", 3, "and a match here"⟩] ∧
    grep "nonexistent" "/test"
      (.ofList [.file "test.txt"
        (some "This is a test file\nwith multiple lines\nbut no matches")]) = [] ∧
    grep "Match" "/test"
      (.ofList [.file "test.txt" (some "and a match here")]) = [] := by
  refine ⟨?_, grepLines_eq_take, by decide, by decide, by decide⟩
  intro query line
  exact containsSub_iff line.data query.data

/-- Witness for C8: the substring characterization applied at the test
file's matching line. -/
theorem grep_substring_matching_C8_witness :
    lineMatches "match" "and a match here" = true ↔
      SubstrOf ("match" : String).data ("and a match here" : String).data :=
  grep_substring_matching_C8.1 "match" "and a match here"

/-- Claim C10: every grep entry's `file_path` is the walked directory
joined with the file name, which extends the search root — grep reports
full paths while `list_files` reports root-relative paths, as the
concrete single-file tree shows. -/
theorem grep_full_paths_C10 :
    (∀ query root es m, m ∈ grep query root es →
      ∃ x ∈ walkFiles root es, m.file_path = joinPath x.1 x.2.1) ∧
    (∀ root es x, x ∈ walkFiles root es → ∃ ext, x.1 = root ++ ext) ∧
    grep "match" "/test" (.ofList [.file "test.txt" (some "a match")]) =
      [⟨"/test/test.txt", 1, "a match"⟩] ∧
    list_files ⟨true, true, .ofList [.file "test.txt" (some "a match")]⟩
      "/test" true =
      [⟨some "test.txt", some "file", some 7, none⟩] := by
  refine ⟨?_, ?_, by decide, by decide⟩
  · intro query root es m hm
    exact mem_grepWalk_file_path query _ MAX_MATCHES hm
  · intro root es x hx
    exact mem_walkFiles_extends root es x hx

/-- Witness for C10: the full-path clause applied to the concrete
single-file tree at its one concrete match entry. -/
theorem grep_full_paths_C10_witness :
    ∃ x ∈ walkFiles "/test" (.ofList [.file "test.txt" (some "a match")]),
      (⟨"/test/test.txt", 1, "a match"⟩ : MatchEntry).file_path =
        joinPath x.1 x.2.1 :=
  grep_full_paths_C10.1 "match" "/test" _ _ (by decide)

/-- Claim C9: the pin-conflict handler is fail-open — it reports `false`
(cancel) exactly when the agent lookup, the pinned-model read and the
prompt all succeed, the pinned model is non-empty and differs from the
requested one, and the user picks the cancel option (4); in particular
any exception in those three interactions makes it return `true`
(proceed). -/
theorem pinned_model_fail_open_C9 :
    (∀ env req, (handle_pinned_model_change env req).1 = false ↔
      (∃ agent pinned, env.currentAgentName = .ok agent ∧
        env.pinnedModel agent = .ok (some pinned) ∧
        pinned ≠ "" ∧ pinned ≠ req ∧ env.promptChoice = .ok 4)) ∧
    (∀ env req m, env.currentAgentName = .exn m →
      (handle_pinned_model_change env req).1 = true) ∧
    (∀ env req agent m, env.currentAgentName = .ok agent →
      env.pinnedModel agent = .exn m →
      (handle_pinned_model_change env req).1 = true) ∧
    (∀ env req m, env.promptChoice = .exn m →
      (handle_pinned_model_change env req).1 = true) := by
  have hiff : ∀ (env : PinEnv) req,
      (handle_pinned_model_change env req).1 = false ↔
        (∃ agent pinned, env.currentAgentName = .ok agent ∧
          env.pinnedModel agent = .ok (some pinned) ∧
          pinned ≠ "" ∧ pinned ≠ req ∧ env.promptChoice = .ok 4) :=
    fun env req =>
      handle_pin_false_iff env.currentAgentName env.pinnedModel
        env.promptChoice req
  have hofiff : ∀ (env : PinEnv) req,
      ¬(∃ agent pinned, env.currentAgentName = .ok agent ∧
          env.pinnedModel agent = .ok (some pinned) ∧
          pinned ≠ "" ∧ pinned ≠ req ∧ env.promptChoice = .ok 4) →
        (handle_pinned_model_change env req).1 = true := by
    intro env req hn
    cases hb : (handle_pinned_model_change env req).1 with
    | false => exact absurd ((hiff env req).mp hb) hn
    | true => rfl
  refine ⟨hiff, ?_, ?_, ?_⟩
  · intro env req m hca
    refine hofiff env req ?_
    rintro ⟨agent, pinned, ha, -, -, -, -⟩
    rw [hca] at ha
    exact Exc.noConfusion ha
  · intro env req agent m hca hpm
    refine hofiff env req ?_
    rintro ⟨agent2, pinned, ha, hpin, -, -, -⟩
    rw [hca] at ha
    obtain rfl := Exc.ok.inj ha
    rw [hpm] at hpin
    exact Exc.noConfusion hpin
  · intro env req m hpc
    refine hofiff env req ?_
    rintro ⟨agent, pinned, -, -, -, -, hc⟩
    rw [hpc] at hc
    exact Exc.noConfusion hc

/-- Witness for C9: at an environment whose prompt raises, the handler
proceeds; at one where the user picks option 4 on a genuine conflict, it
cancels. -/
theorem pinned_model_fail_open_C9_witness :
    (handle_pinned_model_change
      ⟨.ok "agent", fun _ => .ok (some "gpt"), .exn "interrupted"⟩
      "claude").1 = true ∧
    (handle_pinned_model_change
      ⟨.ok "agent", fun _ => .ok (some "gpt"), .ok 4⟩ "claude").1 = false :=
  ⟨pinned_model_fail_open_C9.2.2.2
      ⟨.ok "agent", fun _ => .ok (some "gpt"), .exn "interrupted"⟩
      "claude" "interrupted" rfl,
    (pinned_model_fail_open_C9.1
      ⟨.ok "agent", fun _ => .ok (some "gpt"), .ok 4⟩ "claude").mpr
      ⟨"agent", "gpt", rfl, rfl, by decide, by decide, rfl⟩⟩

end CodePuppy
